import Mathlib

/-!
# Diffy: verification of the tree-diff builder and hunk-based line-diff engine

Shallow embedding of the core of the Diffy directory/file diff tool:

* `src/core/types.rs` — shared data types (`DiffStatus`, `FileEntry`,
  `DiffResult`, `FileDiff`, `DiffHunk`, `DiffLine`, `DiffLineKind`);
* `src/core/diff.rs` — the hunk diff engine (`DiffEngine::diff_files`,
  `compute_diff_hunks`, `create_deletion_hunks`, `create_addition_hunks`);
* `src/core/tree.rs` — the tree diff builder (`FileTreeBuilder::build`,
  `discover_all_files`, `compute_file_statuses`, `build_entry_recursive`,
  `files_are_equal`, `compare_large_files`);
* `src/core/mod.rs` — `DiffyCore::analyze` and `count_recursive_parallel`.

The filesystem is modelled as a pair of sides, each a finite association
list from relative paths (lists of name components) to nodes (directories
or regular files with byte content plus flags saying whether metadata and
content reads succeed).  The external line-alignment library (`similar`)
is treated as an oracle producing a list of tagged changes, exactly as the
spec prescribes; the windowing fold `compute_diff_hunks` is embedded over
that change list.  Line counters are `u32` in the source; overflow is
unreachable for any realistic file, so they are modelled as `Nat`.
-/

/-! ## Shared data types (src/core/types.rs) -/

inductive DiffStatus where
  | added
  | removed
  | modified
  | unchanged
  | conflicted
deriving DecidableEq, Repr

inductive DiffLineKind where
  | context
  | addition
  | deletion
deriving DecidableEq, Repr

structure DiffLine where
  kind : DiffLineKind
  content : String
  old_line_number : Option Nat
  new_line_number : Option Nat
deriving DecidableEq, Repr

structure DiffHunk where
  old_start : Nat
  old_lines : Nat
  new_start : Nat
  new_lines : Nat
  lines : List DiffLine
deriving DecidableEq, Repr

structure FileDiff where
  left_content : Option String
  right_content : Option String
  hunks : List DiffHunk
deriving DecidableEq, Repr

/-! ## The hunk diff engine (src/core/diff.rs)

`similar::TextDiff::from_lines(left, right).iter_all_changes()` is the
external diff oracle: it yields a list of changes tagged `Equal`,
`Delete` or `Insert`, each carrying one source line (with its trailing
newline).  `compute_diff_hunks` folds that list into unified hunks. -/

inductive ChangeTag where
  | equal
  | delete
  | insert
deriving DecidableEq, Repr

structure Change where
  tag : ChangeTag
  value : String
deriving DecidableEq, Repr

/-- `change.value().trim_end_matches('\n')`: drop every trailing newline. -/
def trimEndNewlines (s : String) : String :=
  ⟨(s.data.reverse.dropWhile (fun c => c == '\n')).reverse⟩

/-- `hunk.lines.iter().rev().take_while(|l| l.kind == Context).count()`. -/
def countTrailingContext (lines : List DiffLine) : Nat :=
  (lines.reverse.takeWhile (fun l => l.kind == DiffLineKind.context)).length

/-- The loop state of `compute_diff_hunks`: hunks already closed, the
currently open hunk, the 1-based old/new line counters, and the rolling
context buffer of `(content, old_no, new_no)` triples. -/
structure HunkState where
  hunks : List DiffHunk
  current : Option DiffHunk
  oldNo : Nat
  newNo : Nat
  ctxBuf : List (String × Nat × Nat)
deriving DecidableEq, Repr

/-- Opening a new hunk on a Delete/Insert: the start lines come from the
oldest buffered context line when the buffer is non-empty, else from the
current counters, and the buffered context lines are flushed in. -/
def openHunk (buf : List (String × Nat × Nat)) (oldNo newNo : Nat) : DiffHunk :=
  { old_start := match buf with | [] => oldNo | e :: _ => e.2.1
    old_lines := 0
    new_start := match buf with | [] => newNo | e :: _ => e.2.2
    new_lines := 0
    lines := buf.map (fun e =>
      { kind := DiffLineKind.context, content := e.1
        old_line_number := some e.2.1, new_line_number := some e.2.2 }) }

/-- One iteration of the `for change in diff.iter_all_changes()` loop of
`compute_diff_hunks`, with `context_lines = 3`. -/
def stepChange (st : HunkState) (c : Change) : HunkState :=
  let lineContent := trimEndNewlines c.value
  match c.tag with
  | ChangeTag.equal =>
    match st.current with
    | some hunk =>
      let hunk1 : DiffHunk := { hunk with
        lines := hunk.lines ++ [{ kind := DiffLineKind.context, content := lineContent
                                  old_line_number := some st.oldNo
                                  new_line_number := some st.newNo }] }
      let contextAfterChanges := countTrailingContext hunk1.lines
      if contextAfterChanges ≥ 3 then
        let changesEnd := hunk1.lines.length - contextAfterChanges
        let keepContext := min 3 contextAfterChanges
        let closed : DiffHunk := { hunk1 with lines := hunk1.lines.take (changesEnd + keepContext) }
        { hunks := st.hunks ++ [closed], current := none
          oldNo := st.oldNo + 1, newNo := st.newNo + 1, ctxBuf := [] }
      else
        { st with current := some hunk1, oldNo := st.oldNo + 1, newNo := st.newNo + 1 }
    | none =>
      let buf1 := st.ctxBuf ++ [(lineContent, st.oldNo, st.newNo)]
      let buf2 := if buf1.length > 3 then buf1.tail else buf1
      { st with ctxBuf := buf2, oldNo := st.oldNo + 1, newNo := st.newNo + 1 }
  | ChangeTag.delete =>
    let hunk0 := match st.current with
      | some h => h
      | none => openHunk st.ctxBuf st.oldNo st.newNo
    let buf' := match st.current with
      | some _ => st.ctxBuf
      | none => []
    { hunks := st.hunks
      current := some { hunk0 with
        lines := hunk0.lines ++ [{ kind := DiffLineKind.deletion, content := lineContent
                                   old_line_number := some st.oldNo, new_line_number := none }]
        old_lines := hunk0.old_lines + 1 }
      oldNo := st.oldNo + 1, newNo := st.newNo, ctxBuf := buf' }
  | ChangeTag.insert =>
    let hunk0 := match st.current with
      | some h => h
      | none => openHunk st.ctxBuf st.oldNo st.newNo
    let buf' := match st.current with
      | some _ => st.ctxBuf
      | none => []
    { hunks := st.hunks
      current := some { hunk0 with
        lines := hunk0.lines ++ [{ kind := DiffLineKind.addition, content := lineContent
                                   old_line_number := none, new_line_number := some st.newNo }]
        new_lines := hunk0.new_lines + 1 }
      oldNo := st.oldNo, newNo := st.newNo + 1, ctxBuf := buf' }

def initHunkState : HunkState :=
  { hunks := [], current := none, oldNo := 1, newNo := 1, ctxBuf := [] }

/-- `DiffEngine::compute_diff_hunks`, as a fold of the loop body over the
oracle's change list; a still-open hunk is flushed at end of input. -/
def compute_diff_hunks (changes : List Change) : List DiffHunk :=
  let st := changes.foldl stepChange initHunkState
  match st.current with
  | some h => st.hunks ++ [h]
  | none => st.hunks

/-- Split a character list on a separator; the result always has one more
group than there are separators (so it is never empty). -/
def splitOnChar (sep : Char) : List Char → List (List Char)
  | [] => [[]]
  | c :: rest =>
    match splitOnChar sep rest with
    | [] => [[]]
    | g :: gs => if c = sep then [] :: g :: gs else (c :: g) :: gs

/-- Rust `str::lines()`: split on `'\n'`, a final trailing newline does
not produce an extra empty line, and each line drops one trailing `'\r'`. -/
def rustLines (s : String) : List String :=
  match s.data with
  | [] => []
  | c :: cs =>
    let l := c :: cs
    let l1 := if l.getLast? = some '\n' then l.dropLast else l
    (splitOnChar '\n' l1).map
      (fun g => String.mk (if g.getLast? = some '\r' then g.dropLast else g))

/-- `DiffEngine::create_deletion_hunks`. -/
def create_deletion_hunks (content : String) : List DiffHunk :=
  let lines := rustLines content
  if lines.isEmpty then []
  else
    [{ old_start := 1, old_lines := lines.length, new_start := 1, new_lines := 0
       lines := lines.enum.map (fun p =>
         { kind := DiffLineKind.deletion, content := p.2
           old_line_number := some (p.1 + 1), new_line_number := none }) }]

/-- `DiffEngine::create_addition_hunks`. -/
def create_addition_hunks (content : String) : List DiffHunk :=
  let lines := rustLines content
  if lines.isEmpty then []
  else
    [{ old_start := 1, old_lines := 0, new_start := 1, new_lines := lines.length
       lines := lines.enum.map (fun p =>
         { kind := DiffLineKind.addition, content := p.2
           old_line_number := none, new_line_number := some (p.1 + 1) }) }]

/-- `DiffEngine::diff_files`, at the level of file contents: an absent
file is `none`, an existing file is `some` of its text.  The oracle is a
parameter, per the spec's external-collaborator contract. -/
def diff_files (oracle : String → String → List Change)
    (left_content right_content : Option String) : FileDiff :=
  let hunks := match left_content, right_content with
    | some l, some r => compute_diff_hunks (oracle l r)
    | some l, none => create_deletion_hunks l
    | none, some r => create_addition_hunks r
    | none, none => []
  { left_content := left_content, right_content := right_content, hunks := hunks }

/-! ## Filesystem model (the two roots compared by src/core/tree.rs)

A relative path is a list of name components.  Each side of the
comparison is a root-exists flag plus a finite association list from
relative paths to nodes; a node is a directory or a regular file with
byte content and two flags recording whether `std::fs::metadata` and
opening/reading the file succeed (per-path IO failures are data of the
model).  The association list is the post-ignore view: exactly the
entries the `ignore` walker yields, so `include_ignored` is absorbed
into the choice of entry list. -/

abbrev RelPath := List String

inductive FsNode where
  | dir
  | file (metaOk : Bool) (readOk : Bool) (content : List Nat)
deriving DecidableEq, Repr

structure FsSide where
  rootExists : Bool
  entries : List (RelPath × FsNode)
deriving DecidableEq, Repr

structure Fs where
  left : FsSide
  right : FsSide
deriving DecidableEq, Repr

/-- Resolving `root.join(relative_path)` on one side: nothing exists
under a missing root. -/
def FsSide.lookup (s : FsSide) (p : RelPath) : Option FsNode :=
  if s.rootExists then ((s.entries.find? (fun e => e.1 == p)).map Prod.snd) else none

/-- `full_path.exists()`. -/
def FsSide.existsAt (s : FsSide) (p : RelPath) : Bool :=
  (s.lookup p).isSome

def FsNode.isDir : FsNode → Bool
  | FsNode.dir => true
  | FsNode.file _ _ _ => false

/-- `std::fs::metadata(full_path)`: `is_dir` flag and byte length.  A
file whose `metaOk` flag is off models a metadata failure. -/
def FsNode.metaOf : FsNode → Except Unit (Bool × Nat)
  | FsNode.dir => Except.ok (true, 0)
  | FsNode.file mOk _ c => if mOk then Except.ok (false, c.length) else Except.error ()

/-- Opening and reading the file's bytes; fails when `readOk` is off
(`File::open` / `read` errors, folded into one flag). -/
def FsNode.readOf : FsNode → Except Unit (List Nat)
  | FsNode.dir => Except.error ()
  | FsNode.file _ rOk c => if rOk then Except.ok c else Except.error ()

/-- `std::fs::metadata(path).ok().map(|m| m.len())`. -/
def FsNode.metaLen? : FsNode → Option Nat
  | FsNode.dir => some 0
  | FsNode.file mOk _ c => if mOk then some c.length else none

/-! ## Equality oracle (FileTreeBuilder::files_are_equal / compare_large_files) -/

/-- `CHUNK_SIZE` of `compare_large_files`: 64 KiB. -/
def CHUNK_SIZE : Nat := 64 * 1024

/-- `FileTreeBuilder::compare_large_files`: stream both byte lists in
64 KiB chunks, unequal as soon as one chunk pair differs, equal only
when both hit end-of-file together. -/
def compare_large_files (l r : List Nat) : Bool :=
  if l.take CHUNK_SIZE ≠ r.take CHUNK_SIZE then false
  else if l.take CHUNK_SIZE = [] then true
  else compare_large_files (l.drop CHUNK_SIZE) (r.drop CHUNK_SIZE)
termination_by l.length
decreasing_by
  rename_i _h1 h2
  have hl : l ≠ [] := by
    intro h
    exact h2 (by simp [h])
  have : 0 < l.length := List.length_pos.mpr hl
  have hc : CHUNK_SIZE = 65536 := rfl
  simp only [List.length_drop]
  omega

/-- `FileTreeBuilder::files_are_equal` on a relative path: absent side
means `Ok(false)`; metadata failures propagate as errors; two
directories are equal; a type mismatch is unequal; then size check,
full read below 1 MiB, chunked comparison otherwise. -/
def files_are_equal (fs : Fs) (p : RelPath) : Except Unit Bool :=
  match fs.left.lookup p, fs.right.lookup p with
  | some ln, some rn =>
    match ln.metaOf, rn.metaOf with
    | Except.ok lm, Except.ok rm =>
      if lm.1 && rm.1 then Except.ok true
      else if lm.1 != rm.1 then Except.ok false
      else if lm.2 ≠ rm.2 then Except.ok false
      else if lm.2 < 1024 * 1024 then
        match ln.readOf, rn.readOf with
        | Except.ok lc, Except.ok rc => Except.ok (lc == rc)
        | _, _ => Except.error ()
      else
        match ln.readOf, rn.readOf with
        | Except.ok lc, Except.ok rc => Except.ok (compare_large_files lc rc)
        | _, _ => Except.error ()
    | _, _ => Except.error ()
  | _, _ => Except.ok false

/-! ## Discovery and classification (FileTreeBuilder::discover_all_files,
compute_file_statuses) -/

structure FileInfo where
  path : RelPath
  relative_path : RelPath
  is_directory : Bool
  size : Option Nat
  exists_left : Bool
  exists_right : Bool
deriving DecidableEq, Repr

/-- `collect_files_parallel_static`: a missing root yields no paths; the
walker never yields the empty relative path. -/
def discoverSide (s : FsSide) : List RelPath :=
  if s.rootExists then (s.entries.map Prod.fst).filter (fun p => !p.isEmpty) else []

/-- The union of both sides' discovered paths (`BTreeSet` union), one
occurrence per path. -/
def allPaths (fs : Fs) : List RelPath :=
  (discoverSide fs.left ++ discoverSide fs.right).dedup

/-- The `FileInfo` built for one relative path in `discover_all_files`:
existence from `full_path.exists()`, directory flag preferring the left
side, size from the preferred side's metadata for non-directories. -/
def mkFileInfo (fs : Fs) (p : RelPath) : FileInfo :=
  let el := fs.left.existsAt p
  let er := fs.right.existsAt p
  let isDir :=
    if el then ((fs.left.lookup p).map FsNode.isDir).getD false
    else if er then ((fs.right.lookup p).map FsNode.isDir).getD false
    else false
  let size :=
    if !isDir then
      if el then (fs.left.lookup p).bind FsNode.metaLen?
      else ((fs.right.lookup p).bind FsNode.metaLen?)
    else none
  { path := p, relative_path := p, is_directory := isDir, size := size
    exists_left := el, exists_right := er }

/-- The per-path body of `compute_file_statuses`, including the
`unwrap_or(false)` that absorbs equality-check errors. -/
def computeStatusOne (fs : Fs) (info : FileInfo) : DiffStatus :=
  if info.exists_left && info.exists_right then
    if info.is_directory then DiffStatus.unchanged
    else if (match files_are_equal fs info.relative_path with
             | Except.ok b => b
             | Except.error _ => false) then DiffStatus.unchanged
    else DiffStatus.modified
  else if info.exists_left && !info.exists_right then DiffStatus.removed
  else if !info.exists_left && info.exists_right then DiffStatus.added
  else DiffStatus.unchanged

/-- Phases 1 and 2 of `build`: discovery plus status computation.  The
`HashMap` of the source is modelled as an association list; its
iteration order is quantified over in the theorems (any permutation). -/
def canonicalStatuses (fs : Fs) : List (FileInfo × DiffStatus) :=
  (allPaths fs).map (fun p =>
    let info := mkFileInfo fs p
    (info, computeStatusOne fs info))

/-! ## Tree assembly (FileTreeBuilder::build_entry_recursive) -/

inductive FileEntry where
  | mk (path : RelPath) (relative_path : RelPath) (is_directory : Bool)
       (status : DiffStatus) (size : Option Nat) (children : List FileEntry)

def FileEntry.path : FileEntry → RelPath
  | FileEntry.mk pa _ _ _ _ _ => pa

def FileEntry.relative_path : FileEntry → RelPath
  | FileEntry.mk _ rp _ _ _ _ => rp

def FileEntry.is_directory : FileEntry → Bool
  | FileEntry.mk _ _ d _ _ _ => d

def FileEntry.status : FileEntry → DiffStatus
  | FileEntry.mk _ _ _ st _ _ => st

def FileEntry.size : FileEntry → Option Nat
  | FileEntry.mk _ _ _ _ sz _ => sz

def FileEntry.children : FileEntry → List FileEntry
  | FileEntry.mk _ _ _ _ _ cs => cs

/-- `Path::parent`: `None` for the empty path, otherwise the path
without its last component (`Some("")` for a single component). -/
def parentOf : RelPath → Option RelPath
  | [] => none
  | p@(_ :: _) => some p.dropLast

/-- The child filter of `build_entry_recursive`: an entry is a direct
child of `q` when its path's parent is `q` (the single-component root
branch of the source is kept verbatim; it only fires for the empty
path, whose `parent()` is `None`). -/
def isChildOf (q : RelPath) (e : FileInfo × DiffStatus) : Bool :=
  match parentOf e.1.relative_path with
  | some par => par == q
  | none => q == ([] : RelPath) && e.1.relative_path.length == 1

/-- `OsStr` comparison of two names (lexicographic). -/
def nameCmp (a b : String) : Ordering :=
  if a < b then Ordering.lt else if a = b then Ordering.eq else Ordering.gt

/-- `Option<&OsStr>::cmp`: `None` sorts before `Some`. -/
def optNameCmp : Option String → Option String → Ordering
  | none, none => Ordering.eq
  | none, some _ => Ordering.lt
  | some _, none => Ordering.gt
  | some a, some b => nameCmp a b

/-- The child comparator of `build_entry_recursive`: directories first,
then `relative_path.file_name()` comparison. -/
def childCmp (a b : FileInfo) : Ordering :=
  match a.is_directory, b.is_directory with
  | true, false => Ordering.lt
  | false, true => Ordering.gt
  | _, _ => optNameCmp a.relative_path.getLast? b.relative_path.getLast?

/-- The nondecreasing order realised by `children.sort_by(childCmp)`. -/
def childLE (a b : FileInfo × DiffStatus) : Prop :=
  childCmp a.1 b.1 ≠ Ordering.gt

instance : DecidableRel childLE := fun a b =>
  inferInstanceAs (Decidable (childCmp a.1 b.1 ≠ Ordering.gt))

/-- `children.sort_by(...)`: a stable sort into `childLE` order. -/
def sortChildren (l : List (FileInfo × DiffStatus)) : List (FileInfo × DiffStatus) :=
  List.insertionSort childLE l

/-- The synthetic root entry of `build_tree_from_statuses`. -/
def rootInfo : FileInfo :=
  { path := [], relative_path := [], is_directory := true, size := none
    exists_left := true, exists_right := true }

/-- `build_entry_recursive`.  The source recursion descends along the
strictly-deepening child relation; the explicit `fuel` bounds the depth
and is chosen larger than any path length, so it never runs out. -/
def build_entry_recursive :
    Nat → FileInfo → DiffStatus → List (FileInfo × DiffStatus) → FileEntry
  | 0, info, st, _ =>
    FileEntry.mk info.path info.relative_path info.is_directory st info.size []
  | fuel + 1, info, st, statuses =>
    let children :=
      if info.is_directory then
        (sortChildren (statuses.filter (isChildOf info.relative_path))).map
          (fun c => build_entry_recursive fuel c.1 c.2 statuses)
      else []
    FileEntry.mk info.path info.relative_path info.is_directory st info.size children

/-- An upper bound on the component count of any classified path. -/
def maxPathLen (s : List (FileInfo × DiffStatus)) : Nat :=
  s.foldr (fun e acc => max e.1.relative_path.length acc) 0

/-- Phase 3 of `build` (`build_tree_from_statuses`) from an arbitrary
iteration order of the statuses map. -/
def buildFrom (statuses : List (FileInfo × DiffStatus)) : FileEntry :=
  build_entry_recursive (maxPathLen statuses + 1) rootInfo DiffStatus.unchanged statuses

/-- `FileTreeBuilder::build` over the whole filesystem pair. -/
def build (fs : Fs) : FileEntry :=
  buildFrom (canonicalStatuses fs)

/-- `build` with its `Result` signature: no phase of the source ever
constructs an error (a missing root yields `Ok` of an empty path set). -/
def buildE (fs : Fs) : Except Unit FileEntry :=
  Except.ok (build fs)

/-! ## Counting and analyze (DiffyCore, src/core/mod.rs) -/

mutual
/-- `DiffyCore::count_recursive_parallel`: `(total, added, removed,
modified)` for one node plus its children (the parallel branch of the
source computes the same per-child sums). -/
def count_recursive_parallel : FileEntry → Nat × Nat × Nat × Nat
  | FileEntry.mk _ _ d st _ cs =>
    let base : Nat × Nat × Nat × Nat :=
      if d then (0, 0, 0, 0)
      else match st with
        | DiffStatus.added => (1, 1, 0, 0)
        | DiffStatus.removed => (1, 0, 1, 0)
        | DiffStatus.modified => (1, 0, 0, 1)
        | _ => (1, 0, 0, 0)
    let r := countChildren cs
    (base.1 + r.1, base.2.1 + r.2.1, base.2.2.1 + r.2.2.1, base.2.2.2 + r.2.2.2)

/-- The fold over a node's children inside `count_recursive_parallel`. -/
def countChildren : List FileEntry → Nat × Nat × Nat × Nat
  | [] => (0, 0, 0, 0)
  | c :: cs =>
    let a := count_recursive_parallel c
    let b := countChildren cs
    (a.1 + b.1, a.2.1 + b.2.1, a.2.2.1 + b.2.2.1, a.2.2.2 + b.2.2.2)
end

/-- `DiffResult` (the copied-in root path strings carry no content and
are omitted). -/
structure DiffResultM where
  tree : FileEntry
  total_files : Nat
  added_count : Nat
  removed_count : Nat
  modified_count : Nat

/-- `DiffyCore::analyze` downstream of the statuses map: build the tree,
then aggregate the counts from it. -/
def analyzeFrom (statuses : List (FileInfo × DiffStatus)) : DiffResultM :=
  let tree := buildFrom statuses
  let c := count_recursive_parallel tree
  { tree := tree, total_files := c.1, added_count := c.2.1
    removed_count := c.2.2.1, modified_count := c.2.2.2 }

/-- `DiffyCore::analyze`. -/
def analyze (fs : Fs) : DiffResultM :=
  analyzeFrom (canonicalStatuses fs)

mutual
/-- Full-traversal node count for a Boolean node predicate (the claims'
independent specification of the aggregate counts). -/
def countNodesP (p : FileEntry → Bool) : FileEntry → Nat
  | FileEntry.mk pa rp d st sz cs =>
    (if p (FileEntry.mk pa rp d st sz cs) then 1 else 0) + countNodesPList p cs

def countNodesPList (p : FileEntry → Bool) : List FileEntry → Nat
  | [] => 0
  | c :: cs => countNodesP p c + countNodesPList p cs
end

/-- Membership of a node in a tree (reflexive-transitive closure of the
child relation). -/
inductive SubNode : FileEntry → FileEntry → Prop where
  | refl (t : FileEntry) : SubNode t t
  | step {s c t : FileEntry} : SubNode s c → c ∈ t.children → SubNode s t

/-- The display order the spec states for the children of a directory:
directories first, then lexicographically by file name. -/
def dirsFirstLE (x y : FileEntry) : Prop :=
  (x.is_directory = true ∧ y.is_directory = false) ∨
  (x.is_directory = y.is_directory ∧
    optNameCmp x.relative_path.getLast? y.relative_path.getLast? ≠ Ordering.gt)

/-- The whole-side behaviour of `build` when at least one root is
missing, case-split on which roots exist (statement-level packaging for
the missing-roots claim). -/
def missingRootSpec (fs : Fs) (e : FileEntry) : Prop :=
  match fs.left.rootExists, fs.right.rootExists with
  | false, false =>
      build fs = FileEntry.mk [] [] true DiffStatus.unchanged none []
  | false, true => e.status = DiffStatus.added
  | true, false => e.status = DiffStatus.removed
  | true, true => True

/-! # Theorems

Helper lemmas first, then one theorem per claim (with witnesses and
counterexamples where required). -/

/-! ## Windowing-fold helpers (compute_diff_hunks) -/

/-- An Equal line arriving while no hunk is open only touches the
rolling context buffer, which is capped at 3 entries. -/
theorem stepChange_equal_closed (st : HunkState) (v : String) (h : st.current = none)
    (hb : st.ctxBuf.length ≤ 3) :
    (stepChange st ⟨ChangeTag.equal, v⟩).current = none ∧
    (stepChange st ⟨ChangeTag.equal, v⟩).hunks = st.hunks ∧
    (stepChange st ⟨ChangeTag.equal, v⟩).ctxBuf.length = min (st.ctxBuf.length + 1) 3 := by
  refine ⟨?_, ?_, ?_⟩
  · simp [stepChange, h]
  · simp [stepChange, h]
  simp only [stepChange, h]
  by_cases hb2 : (st.ctxBuf ++ [(trimEndNewlines v, st.oldNo, st.newNo)]).length > 3
  · simp only [hb2, if_true, List.length_tail]
    simp only [List.length_append, List.length_singleton] at hb2 ⊢
    omega
  · simp only [hb2, if_false]
    simp only [List.length_append, List.length_singleton] at hb2 ⊢
    omega

/-- A run of Equal lines with no hunk open never opens or closes a hunk;
the context buffer ends at `min (old + run length) 3` entries. -/
theorem foldl_equal_closed (m : Nat) : ∀ st : HunkState, st.current = none →
    st.ctxBuf.length ≤ 3 →
    (List.foldl stepChange st (List.replicate m ⟨ChangeTag.equal, "e"⟩)).current = none ∧
    (List.foldl stepChange st (List.replicate m ⟨ChangeTag.equal, "e"⟩)).hunks = st.hunks ∧
    (List.foldl stepChange st (List.replicate m ⟨ChangeTag.equal, "e"⟩)).ctxBuf.length =
      min (st.ctxBuf.length + m) 3 := by
  induction m with
  | zero =>
    intro st h hb
    refine ⟨h, rfl, ?_⟩
    simp only [List.replicate, List.foldl_nil]
    omega
  | succ m ih =>
    intro st h hb
    rw [List.replicate_succ, List.foldl_cons]
    obtain ⟨h1, h2, h3⟩ := stepChange_equal_closed st "e" h hb
    obtain ⟨g1, g2, g3⟩ := ih _ h1 (by omega)
    refine ⟨g1, g2.trans h2, ?_⟩
    rw [g3, h3]
    omega

/-- A Delete line leaves the closed-hunks list untouched and always
leaves a hunk open, one line longer than the open hunk (or than the
flushed context buffer when it opens a fresh hunk). -/
theorem stepChange_delete_state (st : HunkState) (v : String) :
    (stepChange st ⟨ChangeTag.delete, v⟩).hunks = st.hunks ∧
    ((stepChange st ⟨ChangeTag.delete, v⟩).current.map (fun h => h.lines.length)) =
      some ((match st.current with
             | some h0 => h0.lines.length
             | none => st.ctxBuf.length) + 1) := by
  cases hc : st.current <;> simp [stepChange, hc, openHunk]

/-- Claim C1 (counterexample): two single-line change runs separated by
five Equal lines — fewer than 2×CONTEXT = 6 — still produce two hunks,
not the single merged hunk the claim requires.  This change sequence is
the minimal line alignment of the texts `x a b c d e y` and
`X a b c d e Y`, so any contract-satisfying diff oracle produces it (up
to the order of the paired Delete/Insert). -/
theorem C1_merge_window_counterexample :
    (compute_diff_hunks
      [⟨ChangeTag.delete, "x\n"⟩, ⟨ChangeTag.insert, "X\n"⟩,
       ⟨ChangeTag.equal, "a\n"⟩, ⟨ChangeTag.equal, "b\n"⟩, ⟨ChangeTag.equal, "c\n"⟩,
       ⟨ChangeTag.equal, "d\n"⟩, ⟨ChangeTag.equal, "e\n"⟩,
       ⟨ChangeTag.delete, "y\n"⟩, ⟨ChangeTag.insert, "Y\n"⟩]).length = 2 := by
  decide

/-- Claim C1 (amended): the fold closes a hunk as soon as 3 trailing
context lines accumulate, so two adjacent change runs merge into one
hunk exactly when separated by at most 2 Equal lines (3 or more Equal
lines yield two hunks — not the conventional 2×CONTEXT = 6 window), and
a change run is padded with at most `min (available, 3)` leading
context lines. -/
theorem C1_hunk_windowing : ∀ k : Nat,
    ((compute_diff_hunks (⟨ChangeTag.delete, "x"⟩ ::
        (List.replicate k ⟨ChangeTag.equal, "e"⟩ ++ [⟨ChangeTag.delete, "y"⟩]))).length
      = if k ≤ 2 then 1 else 2) ∧
    (∀ p : Nat,
      (compute_diff_hunks
          (List.replicate p ⟨ChangeTag.equal, "e"⟩ ++ [⟨ChangeTag.delete, "x"⟩])).map
        (fun hk => hk.lines.length) = [min p 3 + 1]) := by
  intro k
  constructor
  · match k with
    | 0 => decide
    | 1 => decide
    | 2 => decide
    | k + 3 =>
      have hsplit : ((⟨ChangeTag.delete, "x"⟩ ::
          (List.replicate (k + 3) ⟨ChangeTag.equal, "e"⟩ ++ [⟨ChangeTag.delete, "y"⟩])) : List Change) =
          ((⟨ChangeTag.delete, "x"⟩ :: List.replicate 3 ⟨ChangeTag.equal, "e"⟩)
            ++ List.replicate k ⟨ChangeTag.equal, "e"⟩) ++ [⟨ChangeTag.delete, "y"⟩] := by
        rw [show k + 3 = 3 + k by omega, List.replicate_add]
        simp
      rw [hsplit]
      simp only [compute_diff_hunks]
      rw [List.foldl_append, List.foldl_append, List.foldl_cons, List.foldl_nil]
      set S3 := List.foldl stepChange initHunkState
        (⟨ChangeTag.delete, "x"⟩ :: List.replicate 3 ⟨ChangeTag.equal, "e"⟩) with hS3
      have hcur : S3.current = none := by decide
      have hlen : S3.hunks.length = 1 := by decide
      have hbuf : S3.ctxBuf.length ≤ 3 := by decide
      obtain ⟨g1, g2, _⟩ := foldl_equal_closed k S3 hcur hbuf
      obtain ⟨d1, d2⟩ := stepChange_delete_state
        (List.foldl stepChange S3 (List.replicate k ⟨ChangeTag.equal, "e"⟩)) "y"
      cases hcc : (stepChange (List.foldl stepChange S3
          (List.replicate k ⟨ChangeTag.equal, "e"⟩)) ⟨ChangeTag.delete, "y"⟩).current with
      | none => rw [hcc] at d2; simp at d2
      | some hk =>
        simp only [hcc]
        rw [d1, g2]
        simp only [List.length_append, List.length_singleton, hlen]
        have : ¬ (k + 3 ≤ 2) := by omega
        simp [this]
  · intro p
    simp only [compute_diff_hunks]
    rw [List.foldl_append, List.foldl_cons, List.foldl_nil]
    obtain ⟨g1, g2, g3⟩ := foldl_equal_closed p initHunkState rfl (by decide)
    obtain ⟨d1, d2⟩ := stepChange_delete_state
      (List.foldl stepChange initHunkState (List.replicate p ⟨ChangeTag.equal, "e"⟩)) "x"
    rw [g1] at d2
    cases hcc : (stepChange (List.foldl stepChange initHunkState
        (List.replicate p ⟨ChangeTag.equal, "e"⟩)) ⟨ChangeTag.delete, "x"⟩).current with
    | none => rw [hcc] at d2; simp at d2
    | some hk =>
      simp only [hcc]
      rw [hcc] at d2
      simp only [Option.map_some] at d2
      have hk1 : hk.lines.length = min p 3 + 1 := by
        have h2 : hk.lines.length = (List.foldl stepChange initHunkState
            (List.replicate p ⟨ChangeTag.equal, "e"⟩)).ctxBuf.length + 1 :=
          Option.some.inj d2
        rw [h2, g3]
        simp [initHunkState]
      rw [d1, g2]
      simp [initHunkState, hk1]

/-- Claim C5 (counterexample): an existing side whose content is the
empty string has N = 0 lines, and `diff_files` then returns no hunk at
all, not the single whole-file hunk the claim asserts for every N. -/
theorem C5_empty_content_counterexample :
    ((diff_files (fun _ _ => []) none (some "")).hunks.length = 0) ∧
    ((diff_files (fun _ _ => []) (some "") none).hunks.length = 0) := by
  decide

/-- Claim C5 (amended, N ≥ 1): when only one side exists and it has at
least one line, `diff_files` yields exactly one hunk spanning the whole
file: for an absent left side every line is an Addition carrying only
its 1-based new line number, the new range is 1..N and the old range is
start 1 length 0; symmetrically for an absent right side with
Deletions. -/
theorem C5_whole_side_hunks (oracle : String → String → List Change) (s : String)
    (h : rustLines s ≠ []) :
    ((diff_files oracle none (some s)).hunks.length = 1) ∧
    (∀ hk ∈ (diff_files oracle none (some s)).hunks,
      hk.old_start = 1 ∧ hk.old_lines = 0 ∧ hk.new_start = 1 ∧
      hk.new_lines = (rustLines s).length ∧ hk.lines.length = (rustLines s).length ∧
      ∀ i (hi : i < hk.lines.length),
        (hk.lines.get ⟨i, hi⟩).kind = DiffLineKind.addition ∧
        (hk.lines.get ⟨i, hi⟩).old_line_number = none ∧
        (hk.lines.get ⟨i, hi⟩).new_line_number = some (i + 1)) ∧
    ((diff_files oracle (some s) none).hunks.length = 1) ∧
    (∀ hk ∈ (diff_files oracle (some s) none).hunks,
      hk.old_start = 1 ∧ hk.old_lines = (rustLines s).length ∧ hk.new_start = 1 ∧
      hk.new_lines = 0 ∧ hk.lines.length = (rustLines s).length ∧
      ∀ i (hi : i < hk.lines.length),
        (hk.lines.get ⟨i, hi⟩).kind = DiffLineKind.deletion ∧
        (hk.lines.get ⟨i, hi⟩).old_line_number = some (i + 1) ∧
        (hk.lines.get ⟨i, hi⟩).new_line_number = none) := by
  have hne : (rustLines s).isEmpty = false := by
    simp [List.isEmpty_iff, h]
  refine ⟨?_, ?_, ?_, ?_⟩
  · simp [diff_files, create_addition_hunks, hne]
  · intro hk hmem
    simp only [diff_files, create_addition_hunks, hne, Bool.false_eq_true, if_false,
      List.mem_singleton] at hmem
    subst hmem
    refine ⟨rfl, rfl, rfl, by simp, by simp, ?_⟩
    intro i hi
    simp only [List.length_map, List.enum_length] at hi
    simp [List.get_eq_getElem, List.getElem_map, List.getElem_enum]
  · simp [diff_files, create_deletion_hunks, hne]
  · intro hk hmem
    simp only [diff_files, create_deletion_hunks, hne, Bool.false_eq_true, if_false,
      List.mem_singleton] at hmem
    subst hmem
    refine ⟨rfl, by simp, rfl, rfl, by simp, ?_⟩
    intro i hi
    simp only [List.length_map, List.enum_length] at hi
    simp [List.get_eq_getElem, List.getElem_map, List.getElem_enum]

/-- Claim C5 (witness): the amended theorem applied to the two-line
content `"a\nb"`. -/
theorem C5_whole_side_hunks_witness :
    rustLines "a\nb" ≠ [] ∧
    ((diff_files (fun _ _ => []) none (some "a\nb")).hunks.length = 1) ∧
    ((diff_files (fun _ _ => []) (some "a\nb") none).hunks.length = 1) :=
  ⟨by decide,
   (C5_whole_side_hunks (fun _ _ => []) "a\nb" (by decide)).1,
   (C5_whole_side_hunks (fun _ _ => []) "a\nb" (by decide)).2.2.1⟩

/-- Claim C10: when exactly one side exists with empty content the
returned `FileDiff` keeps `some ""` for the existing side and has no
hunks, and when neither side exists the result is empty and the call
succeeds. -/
theorem C10_empty_and_absent_sides (oracle : String → String → List Change) :
    diff_files oracle (some "") none =
      { left_content := some "", right_content := none, hunks := [] } ∧
    diff_files oracle none (some "") =
      { left_content := none, right_content := some "", hunks := [] } ∧
    diff_files oracle none none =
      { left_content := none, right_content := none, hunks := [] } :=
  ⟨rfl, rfl, rfl⟩

/-! ## Child-ordering helpers (build_entry_recursive's comparator) -/

theorem nameCmp_gt_iff (a b : String) : nameCmp a b = Ordering.gt ↔ b < a := by
  unfold nameCmp
  by_cases h1 : a < b
  · rw [if_pos h1]
    constructor
    · intro h; cases h
    · intro h; exact absurd h (lt_asymm h1)
  · rw [if_neg h1]
    by_cases h2 : a = b
    · rw [if_pos h2]
      subst h2
      constructor
      · intro h; cases h
      · intro h; exact absurd h (lt_irrefl a)
    · rw [if_neg h2]
      constructor
      · intro _
        exact lt_of_le_of_ne (not_lt.mp h1) (fun hba => h2 hba.symm)
      · intro _; rfl

theorem optNameCmp_total (x y : Option String) :
    optNameCmp x y ≠ Ordering.gt ∨ optNameCmp y x ≠ Ordering.gt := by
  cases x with
  | none => exact Or.inl (by cases y <;> simp [optNameCmp])
  | some a =>
    cases y with
    | none => exact Or.inr (by simp [optNameCmp])
    | some b =>
      simp only [optNameCmp, ne_eq, nameCmp_gt_iff, not_lt]
      exact (le_total b a).symm

theorem optNameCmp_trans {x y z : Option String}
    (h1 : optNameCmp x y ≠ Ordering.gt) (h2 : optNameCmp y z ≠ Ordering.gt) :
    optNameCmp x z ≠ Ordering.gt := by
  cases x with
  | none => cases z <;> simp [optNameCmp]
  | some a =>
    cases y with
    | none => simp [optNameCmp] at h1
    | some b =>
      cases z with
      | none => simp [optNameCmp] at h2
      | some c =>
        simp only [optNameCmp, ne_eq, nameCmp_gt_iff, not_lt] at h1 h2 ⊢
        exact le_trans h1 h2

theorem optNameCmp_antisymm {x y : Option String}
    (h1 : optNameCmp x y ≠ Ordering.gt) (h2 : optNameCmp y x ≠ Ordering.gt) : x = y := by
  cases x with
  | none =>
    cases y with
    | none => rfl
    | some b => simp [optNameCmp] at h2
  | some a =>
    cases y with
    | none => simp [optNameCmp] at h1
    | some b =>
      simp only [optNameCmp, ne_eq, nameCmp_gt_iff, not_lt] at h1 h2
      exact congrArg some (le_antisymm h1 h2)

theorem childLE_total : ∀ a b : FileInfo × DiffStatus, childLE a b ∨ childLE b a := by
  intro a b
  unfold childLE childCmp
  cases ha : a.1.is_directory <;> cases hb : b.1.is_directory
  · exact optNameCmp_total _ _
  · exact Or.inr (fun h => Ordering.noConfusion h)
  · exact Or.inl (fun h => Ordering.noConfusion h)
  · exact optNameCmp_total _ _

theorem childLE_trans : ∀ a b c : FileInfo × DiffStatus,
    childLE a b → childLE b c → childLE a c := by
  intro a b c
  unfold childLE childCmp
  cases ha : a.1.is_directory <;> cases hb : b.1.is_directory <;>
    cases hc : c.1.is_directory <;> intro h1 h2
  · exact optNameCmp_trans h1 h2
  · exact absurd rfl h2
  · exact absurd rfl h1
  · exact absurd rfl h1
  · exact fun h => Ordering.noConfusion h
  · exact absurd rfl h2
  · exact fun h => Ordering.noConfusion h
  · exact optNameCmp_trans h1 h2

instance : IsTotal (FileInfo × DiffStatus) childLE := ⟨childLE_total⟩

instance : IsTrans (FileInfo × DiffStatus) childLE := ⟨childLE_trans⟩

/-- Two mutually `childLE`-related entries agree on the directory flag
and on the final path component. -/
theorem childLE_antisymm_parts : ∀ a b : FileInfo × DiffStatus,
    childLE a b → childLE b a →
    a.1.is_directory = b.1.is_directory ∧
    a.1.relative_path.getLast? = b.1.relative_path.getLast? := by
  intro a b
  unfold childLE childCmp
  cases ha : a.1.is_directory <;> cases hb : b.1.is_directory <;> intro h1 h2
  · exact ⟨rfl, optNameCmp_antisymm h1 h2⟩
  · exact absurd rfl h1
  · exact absurd rfl h2
  · exact ⟨rfl, optNameCmp_antisymm h1 h2⟩

/-- Helper for the uniqueness of sorted permutations. -/
theorem cons_append_eq_of_all_eq {α : Type} {a : α} :
    ∀ {u v : List α}, (∀ x ∈ u, x = a) → a :: (u ++ v) = u ++ a :: v := by
  intro u
  induction u with
  | nil => intro v _; rfl
  | cons b u ih =>
    intro v h
    have hb : b = a := h b (List.mem_cons_self b u)
    subst hb
    have := ih (v := v) (fun x hx => h x (List.mem_cons_of_mem b hx))
    calc b :: (b :: u ++ v) = b :: (b :: (u ++ v)) := rfl
      _ = b :: (u ++ b :: v) := by rw [this]
      _ = b :: u ++ b :: v := rfl

/-- Two sorted lists that are permutations of each other are equal, as
long as the order is antisymmetric on the elements involved. -/
theorem perm_sorted_unique {α : Type} {R : α → α → Prop} :
    ∀ {l1 l2 : List α}, List.Perm l1 l2 → l1.Pairwise R → l2.Pairwise R →
    (∀ a ∈ l1, ∀ b ∈ l1, R a b → R b a → a = b) → l1 = l2 := by
  intro l1
  induction l1 with
  | nil =>
    intro l2 hp _ _ _
    exact hp.nil_eq
  | cons a t1 ih =>
    intro l2 hp hs1 hs2 hanti
    have hmem : a ∈ l2 := hp.subset (List.mem_cons_self a t1)
    obtain ⟨u, v, rfl⟩ := List.append_of_mem hmem
    have hp2 : List.Perm (a :: t1) (a :: (u ++ v)) := hp.trans List.perm_middle
    have hp' : List.Perm t1 (u ++ v) := hp2.cons_inv
    have hsub : t1 = u ++ v := by
      refine ih hp' hs1.of_cons ?_ ?_
      · exact hs2.sublist (by simp)
      · intro x hx y hy hxy hyx
        exact hanti x (List.mem_cons_of_mem a hx) y (List.mem_cons_of_mem a hy) hxy hyx
    have hall : ∀ x ∈ u, x = a := by
      intro x hxu
      have hx1 : x ∈ t1 := by
        rw [hsub]
        exact List.mem_append_left v hxu
      have hRax : R a x := (List.pairwise_cons.mp hs1).1 x hx1
      have hRxa : R x a := by
        have hpa := (List.pairwise_append.mp hs2).2.2
        exact hpa x hxu a (List.mem_cons_self a v)
      exact hanti x (List.mem_cons_of_mem a hx1) a (List.mem_cons_self a t1) hRxa hRax
    rw [hsub]
    exact cons_append_eq_of_all_eq hall

theorem sortChildren_sorted (l : List (FileInfo × DiffStatus)) :
    (sortChildren l).Pairwise childLE :=
  List.sorted_insertionSort childLE l

theorem sortChildren_perm (l : List (FileInfo × DiffStatus)) :
    List.Perm (sortChildren l) l :=
  List.perm_insertionSort childLE l

/-! ## Statuses-map and permutation-invariance helpers -/

/-- The statuses map binds each relative path at most once. -/
def NodupKeys (s : List (FileInfo × DiffStatus)) : Prop :=
  (s.map (fun e => e.1.relative_path)).Nodup

theorem mkFileInfo_relative_path (fs : Fs) (p : RelPath) :
    (mkFileInfo fs p).relative_path = p := rfl

theorem nodupKeys_canonical (fs : Fs) : NodupKeys (canonicalStatuses fs) := by
  unfold NodupKeys canonicalStatuses
  rw [List.map_map]
  have : ((fun e : FileInfo × DiffStatus => e.1.relative_path) ∘ fun p =>
      (mkFileInfo fs p, computeStatusOne fs (mkFileInfo fs p))) = id := by
    funext p
    rfl
  rw [this, List.map_id]
  exact List.nodup_dedup _

theorem isChildOf_iff (q : RelPath) (e : FileInfo × DiffStatus) :
    isChildOf q e = true ↔
      e.1.relative_path ≠ [] ∧ e.1.relative_path.dropLast = q := by
  unfold isChildOf parentOf
  cases hp : e.1.relative_path with
  | nil => simp
  | cons x xs => simp [beq_iff_eq]

/-- On the children of a fixed parent with distinct paths, `childLE` is
antisymmetric. -/
theorem childLE_antisymm_filter {s : List (FileInfo × DiffStatus)} (hnd : NodupKeys s)
    (q : RelPath) :
    ∀ a ∈ s.filter (isChildOf q), ∀ b ∈ s.filter (isChildOf q),
      childLE a b → childLE b a → a = b := by
  intro a ha b hb h1 h2
  rw [List.mem_filter] at ha hb
  obtain ⟨has, hac⟩ := ha
  obtain ⟨hbs, hbc⟩ := hb
  rw [isChildOf_iff] at hac hbc
  obtain ⟨hane, had⟩ := hac
  obtain ⟨hbne, hbd⟩ := hbc
  obtain ⟨_, hlast⟩ := childLE_antisymm_parts a b h1 h2
  have ha2 := List.dropLast_append_getLast hane
  have hb2 := List.dropLast_append_getLast hbne
  have hla := List.getLast?_eq_getLast a.1.relative_path hane
  have hlb := List.getLast?_eq_getLast b.1.relative_path hbne
  rw [hla, hlb] at hlast
  have hg := Option.some.inj hlast
  have hpath : a.1.relative_path = b.1.relative_path := by
    rw [← ha2, ← hb2, had, hbd, hg]
  exact List.inj_on_of_nodup_map hnd has hbs hpath

theorem maxPathLen_perm {s1 s2 : List (FileInfo × DiffStatus)} (h : List.Perm s1 s2) :
    maxPathLen s1 = maxPathLen s2 := by
  unfold maxPathLen
  refine h.foldr_eq' ?_ 0
  intro x _ y _ z
  omega

theorem build_entry_perm : ∀ (fuel : Nat) (s1 s2 : List (FileInfo × DiffStatus)),
    List.Perm s1 s2 → NodupKeys s1 →
    ∀ (info : FileInfo) (st : DiffStatus),
    build_entry_recursive fuel info st s1 = build_entry_recursive fuel info st s2 := by
  intro fuel
  induction fuel with
  | zero => intro s1 s2 _ _ info st; rfl
  | succ fuel ih =>
    intro s1 s2 hperm hnd info st
    simp only [build_entry_recursive]
    cases hdir : info.is_directory with
    | false => simp
    | true =>
      simp only [if_true]
      have hfp : List.Perm (s1.filter (isChildOf info.relative_path))
          (s2.filter (isChildOf info.relative_path)) := hperm.filter _
      have hsorteq : sortChildren (s1.filter (isChildOf info.relative_path)) =
          sortChildren (s2.filter (isChildOf info.relative_path)) := by
        apply perm_sorted_unique
        · exact (sortChildren_perm _).trans (hfp.trans (sortChildren_perm _).symm)
        · exact sortChildren_sorted _
        · exact sortChildren_sorted _
        · intro a hamem b hbmem h1 h2
          exact childLE_antisymm_filter hnd info.relative_path
            a ((sortChildren_perm _).subset hamem)
            b ((sortChildren_perm _).subset hbmem) h1 h2
      rw [hsorteq]
      congr 1
      apply List.map_congr_left
      intro c _
      exact ih s1 s2 hperm hnd c.1 c.2

/-! ## Tree-shape helpers (node origin, sortedness) -/

theorem subNode_cases {e t : FileEntry} (h : SubNode e t) :
    e = t ∨ ∃ c ∈ t.children, SubNode e c := by
  cases h with
  | refl => exact Or.inl rfl
  | step hsub hmem => exact Or.inr ⟨_, hmem, hsub⟩

theorem build_entry_fields (fuel : Nat) (info : FileInfo) (st : DiffStatus)
    (s : List (FileInfo × DiffStatus)) :
    (build_entry_recursive fuel info st s).relative_path = info.relative_path ∧
    (build_entry_recursive fuel info st s).is_directory = info.is_directory ∧
    (build_entry_recursive fuel info st s).status = st ∧
    (build_entry_recursive fuel info st s).size = info.size ∧
    (build_entry_recursive fuel info st s).path = info.path := by
  cases fuel <;> exact ⟨rfl, rfl, rfl, rfl, rfl⟩

theorem build_children_zero (info : FileInfo) (st : DiffStatus)
    (s : List (FileInfo × DiffStatus)) :
    (build_entry_recursive 0 info st s).children = [] := rfl

theorem build_children_eq (fuel : Nat) (info : FileInfo) (st : DiffStatus)
    (s : List (FileInfo × DiffStatus)) (hdir : info.is_directory = true) :
    (build_entry_recursive (fuel + 1) info st s).children =
      (sortChildren (s.filter (isChildOf info.relative_path))).map
        (fun c => build_entry_recursive fuel c.1 c.2 s) := by
  simp [build_entry_recursive, hdir, FileEntry.children]

theorem build_children_not_dir (fuel : Nat) (info : FileInfo) (st : DiffStatus)
    (s : List (FileInfo × DiffStatus)) (hdir : info.is_directory = false) :
    (build_entry_recursive (fuel + 1) info st s).children = [] := by
  simp [build_entry_recursive, hdir, FileEntry.children]

/-- Every node of the built tree is either the node built for the
argument itself or stems from one of the classified entries. -/
theorem subnode_origin : ∀ (fuel : Nat) (info : FileInfo) (st : DiffStatus)
    (s : List (FileInfo × DiffStatus)) (e : FileEntry),
    SubNode e (build_entry_recursive fuel info st s) →
    (e.relative_path = info.relative_path ∧ e.is_directory = info.is_directory ∧
      e.status = st) ∨
    (∃ pr ∈ s, e.relative_path = pr.1.relative_path ∧
      e.is_directory = pr.1.is_directory ∧ e.status = pr.2) := by
  intro fuel
  induction fuel with
  | zero =>
    intro info st s e hsub
    rcases subNode_cases hsub with rfl | ⟨c, hc, _⟩
    · exact Or.inl ⟨rfl, rfl, rfl⟩
    · rw [build_children_zero] at hc
      cases hc
  | succ fuel ih =>
    intro info st s e hsub
    rcases subNode_cases hsub with rfl | ⟨c, hc, hsub2⟩
    · exact Or.inl ⟨rfl, rfl, rfl⟩
    · cases hdir : info.is_directory with
      | false =>
        rw [build_children_not_dir fuel info st s hdir] at hc
        cases hc
      | true =>
        rw [build_children_eq fuel info st s hdir] at hc
        obtain ⟨c0, hc0mem, rfl⟩ := List.mem_map.mp hc
        have hc0s : c0 ∈ s := List.mem_of_mem_filter ((sortChildren_perm _).subset hc0mem)
        rcases ih c0.1 c0.2 s e hsub2 with ⟨h1, h2, h3⟩ | ⟨pr, hpr, h⟩
        · exact Or.inr ⟨c0, hc0s, h1, h2, h3⟩
        · exact Or.inr ⟨pr, hpr, h⟩

theorem childLE_to_dirsFirstLE (fuel : Nat) (s : List (FileInfo × DiffStatus))
    (a b : FileInfo × DiffStatus) (hab : childLE a b) :
    dirsFirstLE (build_entry_recursive fuel a.1 a.2 s)
      (build_entry_recursive fuel b.1 b.2 s) := by
  obtain ⟨hra, hda, -, -, -⟩ := build_entry_fields fuel a.1 a.2 s
  obtain ⟨hrb, hdb, -, -, -⟩ := build_entry_fields fuel b.1 b.2 s
  unfold dirsFirstLE
  rw [hra, hda, hrb, hdb]
  unfold childLE childCmp at hab
  cases ha2 : a.1.is_directory <;> cases hb2 : b.1.is_directory <;> rw [ha2, hb2] at hab
  · exact Or.inr ⟨rfl, hab⟩
  · exact absurd rfl hab
  · exact Or.inl ⟨rfl, rfl⟩
  · exact Or.inr ⟨rfl, hab⟩

/-- Every directory node of the built tree has its children sorted
directories-first, then lexicographically by name. -/
theorem build_children_sorted : ∀ (fuel : Nat) (info : FileInfo) (st : DiffStatus)
    (s : List (FileInfo × DiffStatus)) (e : FileEntry),
    SubNode e (build_entry_recursive fuel info st s) →
    e.children.Pairwise dirsFirstLE := by
  intro fuel
  induction fuel with
  | zero =>
    intro info st s e hsub
    rcases subNode_cases hsub with rfl | ⟨c, hc, _⟩
    · rw [build_children_zero]
      exact List.Pairwise.nil
    · rw [build_children_zero] at hc
      cases hc
  | succ fuel ih =>
    intro info st s e hsub
    rcases subNode_cases hsub with rfl | ⟨c, hc, hsub2⟩
    · cases hdir : info.is_directory with
      | false =>
        rw [build_children_not_dir fuel info st s hdir]
        exact List.Pairwise.nil
      | true =>
        rw [build_children_eq fuel info st s hdir]
        refine List.Pairwise.map _ ?_ (sortChildren_sorted _)
        intro a b hab
        exact childLE_to_dirsFirstLE fuel s a b hab
    · cases hdir : info.is_directory with
      | false =>
        rw [build_children_not_dir fuel info st s hdir] at hc
        cases hc
      | true =>
        rw [build_children_eq fuel info st s hdir] at hc
        obtain ⟨c0, hc0mem, rfl⟩ := List.mem_map.mp hc
        exact ih c0.1 c0.2 s e hsub2

theorem nodupKeys_of_perm {s1 s2 : List (FileInfo × DiffStatus)}
    (h : List.Perm s1 s2) (hnd : NodupKeys s2) : NodupKeys s1 :=
  (h.map _).nodup_iff.mpr hnd

/-! ## Claims C7 and C8: ordering invariant and deterministic analyze -/

/-- Claim C7: for any iteration order of the statuses map, assembly
produces the same tree as the canonical order (ordering is deterministic,
independent of discovery order and scheduling), and in that tree the
children of every node are sorted directories-first, then
lexicographically by file name. -/
theorem C7_children_sorted_and_deterministic (fs : Fs)
    (s : List (FileInfo × DiffStatus)) (e : FileEntry)
    (hs : List.Perm s (canonicalStatuses fs)) (hsub : SubNode e (buildFrom s)) :
    buildFrom s = build fs ∧ e.children.Pairwise dirsFirstLE := by
  constructor
  · unfold buildFrom build
    rw [maxPathLen_perm hs]
    exact build_entry_perm _ s (canonicalStatuses fs) hs
      (nodupKeys_of_perm hs (nodupKeys_canonical fs)) rootInfo DiffStatus.unchanged
  · exact build_children_sorted _ rootInfo DiffStatus.unchanged s e hsub

def fsC7 : Fs :=
  { left := { rootExists := true
              entries := [(["Z.txt"], FsNode.file true true [1]),
                          (["a"], FsNode.dir),
                          (["a", "b.txt"], FsNode.file true true [2])] }
    right := { rootExists := true
               entries := [(["a"], FsNode.dir)] } }

/-- Claim C7 (witness): the theorem applied to a mixed tree (a file
`Z.txt` and a directory `a/` whose names violate naive sort order) fed
in reversed map order. -/
theorem C7_children_sorted_and_deterministic_witness :
    buildFrom ((canonicalStatuses fsC7).reverse) = build fsC7 ∧
    (buildFrom ((canonicalStatuses fsC7).reverse)).children.Pairwise dirsFirstLE :=
  C7_children_sorted_and_deterministic fsC7 ((canonicalStatuses fsC7).reverse)
    (buildFrom ((canonicalStatuses fsC7).reverse))
    ((canonicalStatuses fsC7).reverse_perm)
    (SubNode.refl (buildFrom ((canonicalStatuses fsC7).reverse)))

/-- Claim C8: `analyze` is deterministic — for any two iteration orders
of the statuses map over the same unchanged filesystem, the resulting
trees (and counts) are structurally equal, despite the HashMap-based
intermediate representation. -/
theorem C8_analyze_idempotent (fs : Fs) (s1 s2 : List (FileInfo × DiffStatus))
    (h1 : List.Perm s1 (canonicalStatuses fs)) (h2 : List.Perm s2 (canonicalStatuses fs)) :
    analyzeFrom s1 = analyzeFrom s2 := by
  have hb : buildFrom s1 = buildFrom s2 := by
    unfold buildFrom
    rw [maxPathLen_perm h1, maxPathLen_perm h2]
    exact build_entry_perm _ s1 s2 (h1.trans h2.symm)
      (nodupKeys_of_perm h1 (nodupKeys_canonical fs)) rootInfo DiffStatus.unchanged
  unfold analyzeFrom
  rw [hb]

/-- Claim C8 (witness): the theorem applied to the canonical order and
its reverse over a concrete two-file filesystem. -/
theorem C8_analyze_idempotent_witness :
    analyzeFrom (canonicalStatuses fsC7) =
      analyzeFrom ((canonicalStatuses fsC7).reverse) :=
  C8_analyze_idempotent fsC7 (canonicalStatuses fsC7)
    ((canonicalStatuses fsC7).reverse)
    (List.Perm.refl (canonicalStatuses fsC7))
    ((canonicalStatuses fsC7).reverse_perm)

/-! ## Claim C2: missing-root behaviour of build -/

theorem lookup_isSome_of_mem_keys {l : List (RelPath × FsNode)} {p : RelPath}
    (h : p ∈ l.map Prod.fst) : (l.find? (fun e => e.1 == p)).isSome = true := by
  induction l with
  | nil => simp at h
  | cons a l ih =>
    rw [List.find?]
    cases hp : (a.1 == p) with
    | true => rfl
    | false =>
      apply ih
      rw [List.map_cons] at h
      rcases List.mem_cons.mp h with h1 | h1
      · rw [beq_iff_eq.mpr h1.symm] at hp
        cases hp
      · exact h1

theorem discoverSide_sound {s : FsSide} {p : RelPath} (h : p ∈ discoverSide s) :
    s.existsAt p = true := by
  unfold discoverSide at h
  cases hre : s.rootExists with
  | false => rw [hre] at h; cases h
  | true =>
    rw [hre, if_pos rfl] at h
    have hmem : p ∈ s.entries.map Prod.fst := List.mem_of_mem_filter h
    unfold FsSide.existsAt FsSide.lookup
    rw [hre, if_pos rfl]
    rw [Option.isSome_map']
    exact lookup_isSome_of_mem_keys hmem

theorem allPaths_sides (fs : Fs) (p : RelPath) (hp : p ∈ allPaths fs) :
    p ∈ discoverSide fs.left ∨ p ∈ discoverSide fs.right := by
  unfold allPaths at hp
  exact List.mem_append.mp (List.mem_dedup.mp hp)

/-- With the left root missing, every discovered path is classified
`Added`. -/
theorem status_added_of_left_missing (fs : Fs) (hl : fs.left.rootExists = false)
    (p : RelPath) (hp : p ∈ allPaths fs) :
    computeStatusOne fs (mkFileInfo fs p) = DiffStatus.added := by
  have hel : fs.left.existsAt p = false := by
    unfold FsSide.existsAt FsSide.lookup
    rw [hl]
    rfl
  have her : fs.right.existsAt p = true := by
    rcases allPaths_sides fs p hp with h | h
    · unfold discoverSide at h
      rw [hl] at h
      cases h
    · exact discoverSide_sound h
  unfold computeStatusOne mkFileInfo
  simp only [hel, her]
  rfl

/-- With the right root missing, every discovered path is classified
`Removed`. -/
theorem status_removed_of_right_missing (fs : Fs) (hr : fs.right.rootExists = false)
    (p : RelPath) (hp : p ∈ allPaths fs) :
    computeStatusOne fs (mkFileInfo fs p) = DiffStatus.removed := by
  have her : fs.right.existsAt p = false := by
    unfold FsSide.existsAt FsSide.lookup
    rw [hr]
    rfl
  have hel : fs.left.existsAt p = true := by
    rcases allPaths_sides fs p hp with h | h
    · exact discoverSide_sound h
    · unfold discoverSide at h
      rw [hr] at h
      cases h
  unfold computeStatusOne mkFileInfo
  simp only [hel, her]
  rfl

/-- Claim C2 (amended): `build` never fails, whatever roots exist.  With
both roots missing it succeeds with the bare synthetic root; with
exactly one root missing every non-root node of the tree is `Added`
(right only) or `Removed` (left only). -/
theorem C2_missing_roots (fs : Fs) (e : FileEntry)
    (hsub : SubNode e (build fs)) (hne : e.relative_path ≠ []) :
    (buildE fs).isOk = true ∧ missingRootSpec fs e := by
  refine ⟨rfl, ?_⟩
  unfold missingRootSpec
  cases hl : fs.left.rootExists <;> cases hr : fs.right.rootExists
  · have hcan : canonicalStatuses fs = [] := by
      unfold canonicalStatuses allPaths discoverSide
      rw [hl, hr]
      rfl
    unfold build buildFrom
    rw [hcan]
    rfl
  · rcases subnode_origin _ rootInfo DiffStatus.unchanged (canonicalStatuses fs) e hsub
      with ⟨hrp, _, _⟩ | ⟨pr, hpr, _, _, hst⟩
    · exact absurd hrp hne
    · obtain ⟨p, hp, hpr2⟩ := List.mem_map.mp hpr
      rw [hst, ← hpr2]
      exact status_added_of_left_missing fs hl p hp
  · rcases subnode_origin _ rootInfo DiffStatus.unchanged (canonicalStatuses fs) e hsub
      with ⟨hrp, _, _⟩ | ⟨pr, hpr, _, _, hst⟩
    · exact absurd hrp hne
    · obtain ⟨p, hp, hpr2⟩ := List.mem_map.mp hpr
      rw [hst, ← hpr2]
      exact status_removed_of_right_missing fs hr p hp
  · trivial

def fsBothMissing : Fs :=
  { left := { rootExists := false, entries := [] }
    right := { rootExists := false, entries := [] } }

/-- Claim C2 (counterexample): with both roots missing, `build` does not
fail — it returns `Ok` with the bare synthetic root, although the claim
says this case is an error. -/
theorem C2_both_missing_counterexample :
    buildE fsBothMissing =
      Except.ok (FileEntry.mk [] [] true DiffStatus.unchanged none []) := rfl

def fsRightOnly : Fs :=
  { left := { rootExists := false, entries := [] }
    right := { rootExists := true, entries := [(["a"], FsNode.file true true [7])] } }

def nodeRightOnly : FileEntry :=
  FileEntry.mk ["a"] ["a"] false DiffStatus.added (some 1) []

/-- Claim C2 (witness): the amended theorem applied to a filesystem with
only the right root present. -/
theorem C2_missing_roots_witness :
    (buildE fsRightOnly).isOk = true ∧ missingRootSpec fsRightOnly nodeRightOnly :=
  C2_missing_roots fsRightOnly nodeRightOnly
    (SubNode.step (SubNode.refl nodeRightOnly)
      (show nodeRightOnly ∈ (build fsRightOnly).children from
        List.mem_singleton.mpr rfl))
    (by decide)

/-! ## Claims C3, C4, C9: type mismatches and the equality oracle -/

/-- Claim C3 (amended): a path that is a directory on the left and a
file on the right is treated as a directory and classified `Unchanged`;
a file on the left and a directory on the right is classified
`Modified`; in both orientations the build never aborts. -/
theorem C3_type_mismatch (fs : Fs) (p : RelPath) (ln rn : FsNode)
    (hl : fs.left.lookup p = some ln) (hr : fs.right.lookup p = some rn)
    (hmix : ln.isDir ≠ rn.isDir) :
    computeStatusOne fs (mkFileInfo fs p) =
      (if ln.isDir then DiffStatus.unchanged else DiffStatus.modified) ∧
    (buildE fs).isOk = true := by
  refine ⟨?_, rfl⟩
  cases ln with
  | dir =>
    cases rn with
    | dir => simp [FsNode.isDir] at hmix
    | file m2 r2 c2 =>
      simp [computeStatusOne, mkFileInfo, FsSide.existsAt, hl, hr, FsNode.isDir]
  | file mOk rOk c =>
    cases rn with
    | file m2 r2 c2 => simp [FsNode.isDir] at hmix
    | dir =>
      cases hm : mOk
      · simp [computeStatusOne, mkFileInfo, FsSide.existsAt, hl, hr, FsNode.isDir,
          files_are_equal, FsNode.metaOf, hm]
      · simp [computeStatusOne, mkFileInfo, FsSide.existsAt, hl, hr, FsNode.isDir,
          files_are_equal, FsNode.metaOf, hm]

def fsDirLeft : Fs :=
  { left := { rootExists := true, entries := [(["a"], FsNode.dir)] }
    right := { rootExists := true, entries := [(["a"], FsNode.file true true [])] } }

/-- Claim C3 (counterexample): with the directory on the left side and a
regular file on the right, the path is classified `Unchanged`, not the
`Modified` the claim requires for both orientations. -/
theorem C3_dir_left_counterexample :
    computeStatusOne fsDirLeft (mkFileInfo fsDirLeft ["a"]) = DiffStatus.unchanged ∧
    computeStatusOne fsDirLeft (mkFileInfo fsDirLeft ["a"]) ≠ DiffStatus.modified := by
  decide

def fsFileLeft : Fs :=
  { left := { rootExists := true, entries := [(["a"], FsNode.file true true [])] }
    right := { rootExists := true, entries := [(["a"], FsNode.dir)] } }

/-- Claim C3 (witness): the amended theorem applied to the file-left,
directory-right orientation, which is classified `Modified`. -/
theorem C3_type_mismatch_witness :
    computeStatusOne fsFileLeft (mkFileInfo fsFileLeft ["a"]) = DiffStatus.modified ∧
    (buildE fsFileLeft).isOk = true := by
  have h := C3_type_mismatch fsFileLeft ["a"] (FsNode.file true true [])
    FsNode.dir rfl rfl (by decide)
  exact ⟨by simpa using h.1, h.2⟩

theorem list_take_drop_ext (n : Nat) (l r : List Nat)
    (h1 : l.take n = r.take n) (h2 : l.drop n = r.drop n) : l = r := by
  rw [← List.take_append_drop n l, ← List.take_append_drop n r, h1, h2]

/-- The chunked streaming comparison decides exact byte equality. -/
theorem compare_large_files_eq (l r : List Nat) :
    compare_large_files l r = (l == r) := by
  induction l, r using compare_large_files.induct with
  | case1 l r h =>
    rw [compare_large_files, if_pos h]
    have hne : l ≠ r := fun he => h (by rw [he])
    exact (beq_eq_false_iff_ne.mpr hne).symm
  | case2 l r h1 h2 =>
    rw [compare_large_files, if_neg h1, if_pos h2]
    have hl : l = [] := by
      rcases List.take_eq_nil_iff.mp h2 with h | h
      · exact absurd h (by norm_num [CHUNK_SIZE])
      · exact h
    have h1' : l.take CHUNK_SIZE = r.take CHUNK_SIZE := not_ne_iff.mp h1
    have hr : r = [] := by
      rw [hl] at h1'
      rcases List.take_eq_nil_iff.mp h1'.symm with h | h
      · exact absurd h (by norm_num [CHUNK_SIZE])
      · exact h
    subst hl
    subst hr
    rfl
  | case3 l r h1 h2 ih =>
    rw [compare_large_files, if_neg h1, if_neg h2, ih]
    have h1' : l.take CHUNK_SIZE = r.take CHUNK_SIZE := not_ne_iff.mp h1
    by_cases he : l = r
    · subst he
      simp
    · have hd : l.drop CHUNK_SIZE ≠ r.drop CHUNK_SIZE := by
        intro hdd
        exact he (list_take_drop_ext CHUNK_SIZE l r h1' hdd)
      rw [beq_eq_false_iff_ne.mpr hd, beq_eq_false_iff_ne.mpr he]

/-- Claim C4: on two existing, readable regular files the equality
oracle returns exactly byte equality of the contents — `false` whenever
the sizes differ and `false` for same-size contents differing anywhere
(including only in the last byte), on both the small-file full-read
path and the 64 KiB chunked path — and classification reports such a
pair `Modified`. -/
theorem C4_files_are_equal_exact (fs : Fs) (p : RelPath) (lc rc : List Nat)
    (hl : fs.left.lookup p = some (FsNode.file true true lc))
    (hr : fs.right.lookup p = some (FsNode.file true true rc)) :
    files_are_equal fs p = Except.ok (lc == rc) ∧
    computeStatusOne fs (mkFileInfo fs p) =
      (if lc == rc then DiffStatus.unchanged else DiffStatus.modified) := by
  have h1 : files_are_equal fs p = Except.ok (lc == rc) := by
    unfold files_are_equal
    rw [hl, hr]
    by_cases hlen : lc.length = rc.length
    · by_cases hsmall : lc.length < 1024 * 1024
      · have hsmall2 : rc.length < 1024 * 1024 := by omega
        simp [FsNode.metaOf, FsNode.readOf, hlen, hsmall, hsmall2]
      · have hsmall2 : ¬ rc.length < 1024 * 1024 := by omega
        simp [FsNode.metaOf, FsNode.readOf, hlen, hsmall, hsmall2, compare_large_files_eq]
    · have hne : lc ≠ rc := fun he => hlen (by rw [he])
      simp [FsNode.metaOf, hlen, beq_eq_false_iff_ne.mpr hne]
  refine ⟨h1, ?_⟩
  have hinfo : (mkFileInfo fs p).is_directory = false := by
    simp [mkFileInfo, FsSide.existsAt, hl, FsNode.isDir]
  cases hbe : (lc == rc) with
  | true =>
    rw [hbe] at h1
    simp [computeStatusOne, mkFileInfo, FsSide.existsAt, hl, hr, FsNode.isDir, h1]
  | false =>
    rw [hbe] at h1
    simp [computeStatusOne, mkFileInfo, FsSide.existsAt, hl, hr, FsNode.isDir, h1]

def fsC4 : Fs :=
  { left := { rootExists := true, entries := [(["f"], FsNode.file true true [1, 2])] }
    right := { rootExists := true, entries := [(["f"], FsNode.file true true [1, 3])] } }

/-- Claim C4 (witness): two same-size two-byte files differing only in
the last byte are unequal and reported `Modified`. -/
theorem C4_files_are_equal_exact_witness :
    files_are_equal fsC4 ["f"] = Except.ok false ∧
    computeStatusOne fsC4 (mkFileInfo fsC4 ["f"]) = DiffStatus.modified := by
  have h := C4_files_are_equal_exact fsC4 ["f"] [1, 2] [1, 3] rfl rfl
  exact ⟨by simpa using h.1, by simpa using h.2⟩

/-- Claim C9: a failing equality check on a both-sides regular file is
absorbed locally — the path is classified `Modified`, `build` still
succeeds, and the classification of any other path depends only on that
path's own entries (so nothing else in the result changes). -/
theorem C9_equality_error_absorbed (fs fs' : Fs) (p q : RelPath) (ln rn : FsNode)
    (hl : fs.left.lookup p = some ln) (hr : fs.right.lookup p = some rn)
    (hlf : ln.isDir = false)
    (herr : files_are_equal fs p = Except.error ())
    (hql : fs.left.lookup q = fs'.left.lookup q)
    (hqr : fs.right.lookup q = fs'.right.lookup q) :
    computeStatusOne fs (mkFileInfo fs p) = DiffStatus.modified ∧
    (buildE fs).isOk = true ∧
    computeStatusOne fs (mkFileInfo fs q) = computeStatusOne fs' (mkFileInfo fs' q) := by
  refine ⟨?_, rfl, ?_⟩
  · cases ln with
    | dir => simp [FsNode.isDir] at hlf
    | file mo ro co =>
      simp [computeStatusOne, mkFileInfo, FsSide.existsAt, hl, hr, FsNode.isDir, herr]
  · simp only [computeStatusOne, mkFileInfo, FsSide.existsAt, files_are_equal, hql, hqr]

def fsC9 : Fs :=
  { left := { rootExists := true, entries := [(["f"], FsNode.file true false [1])] }
    right := { rootExists := true, entries := [(["f"], FsNode.file true true [1])] } }

/-- Claim C9 (witness): a left file whose read fails makes the equality
check error and the path is reported `Modified` while `build` succeeds. -/
theorem C9_equality_error_absorbed_witness :
    computeStatusOne fsC9 (mkFileInfo fsC9 ["f"]) = DiffStatus.modified ∧
    (buildE fsC9).isOk = true :=
  ⟨(C9_equality_error_absorbed fsC9 fsC9 ["f"] ["f"] (FsNode.file true false [1])
      (FsNode.file true true [1]) rfl rfl rfl rfl rfl rfl).1,
   (C9_equality_error_absorbed fsC9 fsC9 ["f"] ["f"] (FsNode.file true false [1])
      (FsNode.file true true [1]) rfl rfl rfl rfl rfl rfl).2.1⟩

/-! ## Claim C6: aggregate count consistency -/

/-- A regular-file node (the counting claims only concern non-directory
nodes). -/
def isFile (e : FileEntry) : Bool := !e.is_directory

/-- A regular-file node carrying the given status. -/
def isFileWithStatus (st : DiffStatus) (e : FileEntry) : Bool :=
  !e.is_directory && e.status == st

/-- `count_recursive_parallel` computes exactly the full-traversal
counts of non-directory nodes: total, Added, Removed, Modified. -/
theorem countRec_eq (t : FileEntry) :
    count_recursive_parallel t =
      (countNodesP isFile t,
       countNodesP (isFileWithStatus DiffStatus.added) t,
       countNodesP (isFileWithStatus DiffStatus.removed) t,
       countNodesP (isFileWithStatus DiffStatus.modified) t) := by
  refine count_recursive_parallel.induct
    (fun t => count_recursive_parallel t =
      (countNodesP isFile t,
       countNodesP (isFileWithStatus DiffStatus.added) t,
       countNodesP (isFileWithStatus DiffStatus.removed) t,
       countNodesP (isFileWithStatus DiffStatus.modified) t))
    (fun cs => countChildren cs =
      (countNodesPList isFile cs,
       countNodesPList (isFileWithStatus DiffStatus.added) cs,
       countNodesPList (isFileWithStatus DiffStatus.removed) cs,
       countNodesPList (isFileWithStatus DiffStatus.modified) cs))
    ?_ ?_ ?_ t
  · intro pa rp d st sz cs ih
    cases d <;> cases st <;>
      simp [count_recursive_parallel, countNodesP, isFile, isFileWithStatus, ih,
        FileEntry.is_directory, FileEntry.status]
  · simp [countChildren, countNodesPList]
  · intro c cs ih1 ih2
    simp only [countChildren, countNodesPList, ih1, ih2]

/-- Non-directory nodes partition by their (exhaustive) status. -/
theorem countNodesP_partition (t : FileEntry) :
    countNodesP isFile t =
      countNodesP (isFileWithStatus DiffStatus.added) t +
      countNodesP (isFileWithStatus DiffStatus.removed) t +
      countNodesP (isFileWithStatus DiffStatus.modified) t +
      countNodesP (isFileWithStatus DiffStatus.unchanged) t +
      countNodesP (isFileWithStatus DiffStatus.conflicted) t := by
  refine count_recursive_parallel.induct
    (fun t => countNodesP isFile t =
      countNodesP (isFileWithStatus DiffStatus.added) t +
      countNodesP (isFileWithStatus DiffStatus.removed) t +
      countNodesP (isFileWithStatus DiffStatus.modified) t +
      countNodesP (isFileWithStatus DiffStatus.unchanged) t +
      countNodesP (isFileWithStatus DiffStatus.conflicted) t)
    (fun cs => countNodesPList isFile cs =
      countNodesPList (isFileWithStatus DiffStatus.added) cs +
      countNodesPList (isFileWithStatus DiffStatus.removed) cs +
      countNodesPList (isFileWithStatus DiffStatus.modified) cs +
      countNodesPList (isFileWithStatus DiffStatus.unchanged) cs +
      countNodesPList (isFileWithStatus DiffStatus.conflicted) cs)
    ?_ ?_ ?_ t
  · intro pa rp d st sz cs ih
    cases d <;> cases st <;>
      simp [countNodesP, isFile, isFileWithStatus, ih,
        FileEntry.is_directory, FileEntry.status] <;> omega
  · simp [countNodesPList]
  · intro c cs ih1 ih2
    simp only [countNodesPList, ih1, ih2]
    omega

theorem countNodesPList_map_zero {α : Type} (p : FileEntry → Bool)
    (f : α → FileEntry) :
    ∀ l : List α, (∀ c ∈ l, countNodesP p (f c) = 0) →
      countNodesPList p (l.map f) = 0 := by
  intro l
  induction l with
  | nil => intro _; rfl
  | cons c cs ih =>
    intro h
    simp only [List.map_cons, countNodesPList]
    rw [h c (List.mem_cons_self c cs), ih (fun x hx => h x (List.mem_cons_of_mem c hx))]

/-- Trees assembled from a Conflicted-free statuses map contain no
Conflicted file node. -/
theorem build_no_conflicted : ∀ (fuel : Nat) (info : FileInfo) (st : DiffStatus)
    (s : List (FileInfo × DiffStatus)), st ≠ DiffStatus.conflicted →
    (∀ pr ∈ s, pr.2 ≠ DiffStatus.conflicted) →
    countNodesP (isFileWithStatus DiffStatus.conflicted)
      (build_entry_recursive fuel info st s) = 0 := by
  intro fuel
  induction fuel with
  | zero =>
    intro info st s hst _
    simp [build_entry_recursive, countNodesP, countNodesPList, isFileWithStatus,
      FileEntry.is_directory, FileEntry.status, beq_eq_false_iff_ne.mpr hst]
  | succ fuel ih =>
    intro info st s hst hs
    cases hdir : info.is_directory with
    | false =>
      simp [build_entry_recursive, hdir, countNodesP, countNodesPList, isFileWithStatus,
        FileEntry.is_directory, FileEntry.status, beq_eq_false_iff_ne.mpr hst]
    | true =>
      simp only [build_entry_recursive, hdir, if_true, countNodesP, isFileWithStatus,
        FileEntry.is_directory, FileEntry.status]
      rw [countNodesPList_map_zero _ _ _ ?_]
      · simp [beq_eq_false_iff_ne.mpr hst]
      · intro c hc
        exact ih c.1 c.2 s
          (hs c (List.mem_of_mem_filter ((sortChildren_perm _).subset hc)))
          hs

/-- `computeStatusOne` never produces `Conflicted`. -/
theorem computeStatusOne_ne_conflicted (fs : Fs) (info : FileInfo) :
    computeStatusOne fs info ≠ DiffStatus.conflicted := by
  unfold computeStatusOne
  split
  · split
    · intro h; cases h
    · split
      · intro h; cases h
      · intro h; cases h
  · split
    · intro h; cases h
    · split
      · intro h; cases h
      · intro h; cases h

/-- Claim C6: in every `DiffResult` produced by `analyze` (any map
iteration order), `total_files` equals
`added + removed + modified + (Unchanged non-directory nodes)`, and each
aggregate count equals the number of non-directory nodes of the
returned tree carrying the corresponding status. -/
theorem C6_count_consistency (fs : Fs) (s : List (FileInfo × DiffStatus))
    (hs : List.Perm s (canonicalStatuses fs)) :
    (analyzeFrom s).total_files =
      (analyzeFrom s).added_count + (analyzeFrom s).removed_count +
        (analyzeFrom s).modified_count +
        countNodesP (isFileWithStatus DiffStatus.unchanged) (analyzeFrom s).tree ∧
    (analyzeFrom s).total_files = countNodesP isFile (analyzeFrom s).tree ∧
    (analyzeFrom s).added_count =
      countNodesP (isFileWithStatus DiffStatus.added) (analyzeFrom s).tree ∧
    (analyzeFrom s).removed_count =
      countNodesP (isFileWithStatus DiffStatus.removed) (analyzeFrom s).tree ∧
    (analyzeFrom s).modified_count =
      countNodesP (isFileWithStatus DiffStatus.modified) (analyzeFrom s).tree := by
  have hsn : ∀ pr ∈ s, pr.2 ≠ DiffStatus.conflicted := by
    intro pr hpr
    have hc : pr ∈ canonicalStatuses fs := hs.subset hpr
    obtain ⟨p, _, hpr2⟩ := List.mem_map.mp hc
    rw [← hpr2]
    exact computeStatusOne_ne_conflicted fs (mkFileInfo fs p)
  have hconf : countNodesP (isFileWithStatus DiffStatus.conflicted) (buildFrom s) = 0 :=
    build_no_conflicted _ rootInfo DiffStatus.unchanged s (by intro h; cases h) hsn
  have hcr := countRec_eq (buildFrom s)
  have hpart := countNodesP_partition (buildFrom s)
  have htree : (analyzeFrom s).tree = buildFrom s := rfl
  have h1 : (analyzeFrom s).total_files = countNodesP isFile (buildFrom s) := by
    show (count_recursive_parallel (buildFrom s)).1 = _
    rw [hcr]
  have h2 : (analyzeFrom s).added_count =
      countNodesP (isFileWithStatus DiffStatus.added) (buildFrom s) := by
    show (count_recursive_parallel (buildFrom s)).2.1 = _
    rw [hcr]
  have h3 : (analyzeFrom s).removed_count =
      countNodesP (isFileWithStatus DiffStatus.removed) (buildFrom s) := by
    show (count_recursive_parallel (buildFrom s)).2.2.1 = _
    rw [hcr]
  have h4 : (analyzeFrom s).modified_count =
      countNodesP (isFileWithStatus DiffStatus.modified) (buildFrom s) := by
    show (count_recursive_parallel (buildFrom s)).2.2.2 = _
    rw [hcr]
  refine ⟨?_, by rw [htree]; exact h1, by rw [htree]; exact h2,
    by rw [htree]; exact h3, by rw [htree]; exact h4⟩
  rw [htree, h1, h2, h3, h4, hpart, hconf]
  omega

/-- Claim C6 (witness): the count-consistency equation evaluated on a
concrete mixed filesystem. -/
theorem C6_count_consistency_witness :
    (analyzeFrom (canonicalStatuses fsC7)).total_files =
      (analyzeFrom (canonicalStatuses fsC7)).added_count +
        (analyzeFrom (canonicalStatuses fsC7)).removed_count +
        (analyzeFrom (canonicalStatuses fsC7)).modified_count +
        countNodesP (isFileWithStatus DiffStatus.unchanged)
          (analyzeFrom (canonicalStatuses fsC7)).tree :=
  (C6_count_consistency fsC7 (canonicalStatuses fsC7)
    (List.Perm.refl (canonicalStatuses fsC7))).1
